import Mathlib

/-!
# Verification of the git repository browser's core logic

This file gives a shallow embedding of the two core components of the
repository (an MCP git-repository browser written in JavaScript):

* the search-result structurer inside `handleGitSearchCode`
  (`src/handlers`, source file `part_000`, lines 140-229), and
* the repository cache manager `cloneRepo` together with the file-read
  handler `handleGitReadFiles` (source files `part_002` lines 12-47 and
  `part_000` lines 48-89).

Strings are modeled as `List Char`.  The three JavaScript regular
expressions used by the structurer are embedded as executable functions
whose semantics (greedy matching with backtracking, negated character
classes matching newlines) follow ECMAScript exactly; each definition's
doc comment records the regex it implements.
-/

/-- The set of characters matched by JavaScript's `\s` (and hence removed
by `String.prototype.trim`), restricted to the code points that can occur
in the inputs we consider.  `\S` in the section-splitting regex is the
negation of this predicate. -/
def jsWhitespace (c : Char) : Bool :=
  c = ' ' || c = '\t' || c = '\n' || c = '\r' || c = '\x0b' || c = '\x0c' ||
  c = ' ' || c = '﻿'

/-- Predicate `hasChar x l`: true iff character `x` occurs in `l`. -/
def hasChar (x : Char) : List Char → Bool
  | [] => false
  | c :: t => c = x || hasChar x t

/-- Predicate `allDigits l`: true iff every character of `l` is a decimal digit. -/
def allDigits : List Char → Bool
  | [] => true
  | c :: t => c.isDigit && allDigits t

/-- Function `parseDigits`: JavaScript's `parseInt(s)` restricted to the pure
decimal-digit strings produced by the capture group `(\d+)`. -/
def parseDigits (l : List Char) : Nat :=
  l.foldl (fun a c => a * 10 + (c.toNat - 48)) 0

/-- Split a character list at its first `':'`; `none` if there is no colon.
This is the engine behind the `[^:]+:` prefixes of the JS regexes: a
negated class `[^:]` can never cross a colon, so the captured prefix always
ends at the first colon. -/
def splitFirstColon : List Char → Option (List Char × List Char)
  | [] => none
  | c :: t =>
    if c = ':' then some ([], t)
    else (splitFirstColon t).map (fun p => (c :: p.1, p.2))

/-- Take the maximal leading run of decimal digits (the greedy `\d+`). -/
def takeDigits : List Char → List Char × List Char
  | [] => ([], [])
  | c :: t =>
    if c.isDigit then
      let p := takeDigits t
      (c :: p.1, p.2)
    else ([], c :: t)

/-- Embedding of `line.match(/^([^:]+):/)` used at `part_000` line 150 to
extract the file name from a section's first line: the (necessarily
greedy-complete) nonempty colon-free prefix before the first colon. -/
def matchFileName (l : List Char) : Option (List Char) :=
  match splitFirstColon l with
  | none => none
  | some (s, _) => if s = [] then none else some s

/-- Embedding of `line.match(/^([^-][^:]+):(\d+):(.*)/)` (`part_000` line
166), the match-line classifier.  The first character must not be `'-'`
(but may be anything else, including `':'` or whitespace); after it, a
nonempty colon-free run, the first colon, a nonempty digit run, and a
second colon.  Backtracking cannot produce any other parse: `[^:]+` can
never cross a colon and a shortened `\d+` would have to end at a digit.
Returns `(parseInt(group 2), group 3)`. -/
def matchLineNumber (l : List Char) : Option (Nat × List Char) :=
  match l with
  | [] => none
  | c :: t =>
    if c = '-' then none
    else
      match splitFirstColon t with
      | none => none
      | some (s, u) =>
        if s = [] then none
        else
          let p := takeDigits u
          if p.1 = [] then none
          else
            match p.2 with
            | ':' :: rest => some (parseDigits p.1, rest)
            | _ => none

/-- Core of `line.match(/^([^:]+)-(\d+)-(.*)/)` (`part_000` line 187).
Returns `(group 1, digit run, group 3)`.  The ECMAScript engine prefers
the longest `[^:]+` capture, backtracking one character at a time, so the
recursion prefers extending the captured prefix over splitting at the
current position.  At a split, `(\d+)-` demands the maximal digit run
followed immediately by `'-'` (shorter runs would end at a digit). -/
def matchContextCore : List Char → Option (List Char × List Char × List Char)
  | [] => none
  | c :: t =>
    if c = ':' then none
    else
      match matchContextCore t with
      | some (p, ds, rest) => some (c :: p, ds, rest)
      | none =>
        match t with
        | [] => none
        | d :: u =>
          if d = '-' then
            let q := takeDigits u
            if q.1 = [] then none
            else
              match q.2 with
              | [] => none
              | e :: rest => if e = '-' then some ([c], q.1, rest) else none
          else none

/-- Embedding of the context-line classifier: line number and content of a
`filename-linenum-content` line. -/
def matchContext (l : List Char) : Option (Nat × List Char) :=
  match matchContextCore l with
  | none => none
  | some (_, ds, rest) => some (parseDigits ds, rest)

/-- A `{line_number, content}` record pushed into a context buffer
(`part_000` lines 189-192). -/
structure ContextLine where
  line_number : Nat
  content : List Char
deriving DecidableEq, Repr

/-- The `currentMatch` object built at `part_000` lines 177-183. -/
structure SearchMatch where
  file : List Char
  line_number : Nat
  content : List Char
  context_before : List ContextLine
  context_after : List ContextLine
deriving DecidableEq, Repr

/-- One entry of `results` (`part_000` lines 204-207): a file name with
its ordered matches. -/
structure SearchFileResult where
  file : List Char
  «matches» : List SearchMatch
deriving DecidableEq, Repr

/-- Split a character list into lines at `'\n'`, as
`fileMatch.split("\n")` does (an empty input yields one empty line). -/
def splitLines : List Char → List (List Char)
  | [] => [[]]
  | c :: rest =>
    let r := splitLines rest
    if c = '\n' then [] :: r
    else
      match r with
      | [] => [[c]]
      | l :: ls => (c :: l) :: ls

/-- Condition for a line to begin a new section under
`stdout.split(/^(?=\S[^:]*:)/m)` (`part_000` line 142).  The lookahead
starts at a line start; `\S` requires a non-whitespace first character and
`[^:]*:` then searches for a colon.  Crucially `[^:]` also matches
newlines, so the colon may be found on ANY later line: the condition is
"first character non-whitespace, and a colon occurs somewhere after it in
the rest of the output".  `rest` is the list of lines following `l`. -/
def isSplitLine (l : List Char) (rest : List (List Char)) : Bool :=
  match l with
  | [] => false
  | c :: t => !jsWhitespace c && (hasChar ':' t || rest.any (hasChar ':'))

/-- Group the lines of the raw output into the sections produced by the
split at `part_000` line 142.  The first line always begins the first
section (a zero-width match at position 0 does not split); every later
line satisfying `isSplitLine` begins a new section. -/
def sectionsOf : List (List Char) → List (List (List Char))
  | [] => []
  | [l] => [[l]]
  | l :: l2 :: ls =>
    match sectionsOf (l2 :: ls) with
    | [] => [[l]]
    | s :: ss =>
      if isSplitLine l2 ls then [l] :: s :: ss
      else (l :: s) :: ss

/-- The mutable state of the per-section loop at `part_000` lines 157-158:
`currentMatch`, the `contextLines` buffer, and the `matches` accumulator. -/
structure LoopState where
  currentMatch : Option SearchMatch
  contextLines : List ContextLine
  «matches» : List SearchMatch
deriving DecidableEq, Repr

/-- One iteration of the loop at `part_000` lines 160-195.  Whitespace-only
lines are skipped; a match line flushes any pending match (giving it the
buffered context as `context_after`) and starts a new one whose
`context_before` is the buffer (which is empty whenever a match was just
flushed); a context line extends the buffer; anything else is dropped. -/
def stepLine (fileName : List Char) (s : LoopState) (line : List Char) : LoopState :=
  if line.all jsWhitespace then s
  else
    match matchLineNumber line with
    | some (n, content) =>
      let flushed :=
        match s.currentMatch with
        | some m => s.«matches» ++ [{ m with context_after := s.contextLines }]
        | none => s.«matches»
      let cb :=
        match s.currentMatch with
        | some _ => ([] : List ContextLine)
        | none => s.contextLines
      { currentMatch := some { file := fileName, line_number := n, content := content,
                               context_before := cb, context_after := [] },
        contextLines := [], «matches» := flushed }
    | none =>
      match matchContext line with
      | some (n, content) =>
        { s with contextLines := s.contextLines ++ [⟨n, content⟩] }
      | none => s

/-- The flush of the last pending match at `part_000` lines 198-201. -/
def flushFinal (s : LoopState) : List SearchMatch :=
  match s.currentMatch with
  | some m => s.«matches» ++ [{ m with context_after := s.contextLines }]
  | none => s.«matches»

/-- Processing of one section (`part_000` lines 144-209): skip
whitespace-only sections, extract the file name from the first line, run
the line loop, and emit a `SearchFileResult` only if at least one match
was found. -/
def processSection (sec : List (List Char)) : Option SearchFileResult :=
  match sec with
  | [] => none
  | firstLine :: _ =>
    if sec.all (fun l => l.all jsWhitespace) then none
    else
      match matchFileName firstLine with
      | none => none
      | some fileName =>
        let st := sec.foldl (stepLine fileName) ⟨none, [], []⟩
        let finalMatches := flushFinal st
        if finalMatches = [] then none
        else some { file := fileName, «matches» := finalMatches }

/-- The whole structurer (`part_000` lines 139-211): `results` as built
from the raw `git grep` stdout.  An empty stdout is falsy in JS, so it
yields no results at all. -/
def structureResults (stdout : List Char) : List SearchFileResult :=
  if stdout.isEmpty then []
  else (sectionsOf (splitLines stdout)).filterMap processSection

/-- The top-level search report serialized at `part_000` lines 217-229. -/
structure SearchReport where
  pattern : List Char
  case_sensitive : Bool
  context_lines : Nat
  file_patterns : List (List Char)
  results : List SearchFileResult
  total_matches : Nat
  total_files : Nat
deriving DecidableEq, Repr

/-- Build the report exactly as the handler does: `total_matches` by the
`reduce` at lines 224-227 and `total_files` as `results.length`. -/
def searchReport (pattern : List Char) (case_sensitive : Bool) (context_lines : Nat)
    (file_patterns : List (List Char)) (stdout : List Char) : SearchReport :=
  let rs := structureResults stdout
  { pattern := pattern, case_sensitive := case_sensitive,
    context_lines := context_lines, file_patterns := file_patterns,
    results := rs,
    total_matches := rs.foldl (fun sum file => sum + file.«matches».length) 0,
    total_files := rs.length }

/-! ## Repository cache manager (`cloneRepo`, `part_002` lines 12-47)

`cloneRepo` interacts with the filesystem and with git.  The embedding
makes the state of the deterministic cache directory and the outcomes of
the external calls explicit:

* `CacheDir` describes the directory at the deterministic path before the
  call: whether it exists, whether opening it as a working copy (the
  `getRemotes` call) succeeds, and the fetch URL of its first remote;
* `CloneEnv` fixes the outcomes of the two network operations: whether a
  `git pull` in a valid matching copy would succeed, and whether a fresh
  `git clone` of the requested URL into an EMPTY directory would succeed.
  A `git clone` into a non-empty directory always fails ("destination path
  already exists and is not an empty directory"), which the model encodes
  directly in `clonePhase`. -/

/-- State of the cache directory `<tmp>/github_tools_<hash>` before the call. -/
structure CacheDir where
  dirExists : Bool
  isRepo : Bool
  remoteUrl : Option String
deriving DecidableEq, Repr

/-- Outcomes of the external git operations for this call. -/
structure CloneEnv where
  pullOk : Bool
  cloneOk : Bool
deriving DecidableEq, Repr

/-- What `cloneRepo` leaves at the cache path when it returns. -/
inductive DirContent where
  | absent
  | oldRepo
  | freshClone
deriving DecidableEq, Repr

/-- Result of the call: `cloneRepo` either returns the cache path (`ok`) or throws. -/
inductive CloneResult where
  | ok
  | error (msg : String)
deriving DecidableEq, Repr

/-- Observable outcome of a `cloneRepo` call: the returned value or thrown
error, whether `fs.remove` ran inside the validation `catch` (`part_002`
line 33), whether the clone step at line 40 was reached, and what is left
in the cache directory. -/
structure CloneOutcome where
  result : CloneResult
  removedInValidation : Bool
  cloneAttempted : Bool
  finalDir : DirContent
deriving DecidableEq, Repr

/-- The fall-through clone step (`part_002` lines 38-46): `fs.ensureDir`
then `simpleGit().clone(repoUrl, tempDir)`.  The clone succeeds only if it
would succeed on the network (`cloneOk`) and the directory is empty
(`dirPopulated = false`); on failure the directory is removed and the
wrapped error is thrown. -/
def clonePhase (dirPopulated : Bool) (env : CloneEnv) (removed : Bool) : CloneOutcome :=
  if env.cloneOk && !dirPopulated then
    ⟨.ok, removed, true, .freshClone⟩
  else
    ⟨.error "Failed to clone repository", removed, true, .absent⟩

/-- Embedding of `cloneRepo` (`part_002` lines 12-47).  If the directory
exists, the `try` block opens it and reads the remotes; any exception
there (including one thrown by `git.pull()`!) is caught at line 31, the
directory is removed, and control falls through to the clone step.  If the
first remote's fetch URL differs from the requested URL the `if` at line
26 is simply false: nothing is removed and control also falls through to
the clone step, with the old contents still in place. -/
def cloneRepo (repoUrl : String) (st : CacheDir) (env : CloneEnv) : CloneOutcome :=
  if st.dirExists then
    if st.isRepo then
      if st.remoteUrl = some repoUrl then
        if env.pullOk then ⟨.ok, false, false, .oldRepo⟩
        else clonePhase false env true
      else clonePhase true env false
    else clonePhase false env true
  else clonePhase false env false

/-! ## File-read handler (`handleGitReadFiles`, `part_000` lines 48-89) -/

/-- Outcome of looking up one requested path under the repo root:
`fs.pathExists` false, a successful `fs.readFile`, or a thrown read
error. -/
inductive FileOutcome where
  | found (content : String)
  | missing
  | readError (msg : String)
deriving DecidableEq, Repr

/-- The per-path body at `part_000` lines 55-63: content on success, a
per-path error string otherwise (the inner `try`/`catch` isolates each
path). -/
def readOne (fsRead : String → FileOutcome) (p : String) : String :=
  match fsRead p with
  | .found c => c
  | .missing => "Error: File not found"
  | .readError m => "Error reading file: " ++ m

/-- Embedding of `handleGitReadFiles` (`part_000` lines 48-89).  The
`cloneResult` argument abstracts the `await cloneRepo(repo_url)` call; the
handler's `results` object is modeled as the association list of
`(path, text)` pairs in request order.  Only a `cloneRepo` failure reaches
the outer `catch` (line 74) and produces the top-level error shape. -/
def handleGitReadFiles (cloneResult : Except String Unit)
    (fsRead : String → FileOutcome) (file_paths : List String) :
    Except String (List (String × String)) :=
  match cloneResult with
  | .error msg => .error ("Failed to process repository: " ++ msg)
  | .ok _ => .ok (file_paths.map (fun p => (p, readOne fsRead p)))

/-! ## Synthetic search-output blocks

Generators for the "one file block, one match line with N context lines
before and M after" inputs of the spec's round-trip property, shaped like
`git grep -n -C<k>` output: `file-linenum-content` context lines around a
`file:linenum:content` match line. -/

/-- Join lines with `'\n'` (inverse of `splitLines` on newline-free lines). -/
def joinLines : List (List Char) → List Char
  | [] => []
  | [l] => l
  | l :: ls => l ++ '\n' :: joinLines ls

/-- A raw context line `file-linenum-content`; `p` is the (digit string,
content) pair. -/
def ctxLine (f : List Char) (p : List Char × List Char) : List Char :=
  f ++ '-' :: (p.1 ++ '-' :: p.2)

/-- A raw match line `file:linenum:content`. -/
def mLine (f ds c : List Char) : List Char :=
  f ++ ':' :: (ds ++ ':' :: c)

/-- The structured context record a context line should yield. -/
def ctxOf (p : List Char × List Char) : ContextLine :=
  ⟨parseDigits p.1, p.2⟩

/-- A well-formed file name as it appears in `git grep` output: at least
two characters (one character before the first colon can never satisfy
`[^-][^:]+`), not starting with `'-'` or whitespace, and containing no
colon or newline. -/
def goodFile (f : List Char) : Bool :=
  match f with
  | c0 :: _ :: _ => !(c0 = '-') && !jsWhitespace c0 && !hasChar ':' f && !hasChar '\n' f
  | _ => false

/-- A nonempty decimal digit string (what `(\d+)` captures). -/
def goodDigits (ds : List Char) : Bool :=
  !ds.isEmpty && allDigits ds

/-- A well-formed (digit string, content) pair for a context line whose
content contains no colon, dash or newline, so that the line parses as the
intended context record and is not a section split point. -/
def goodCtx (p : List Char × List Char) : Bool :=
  goodDigits p.1 && !hasChar ':' p.2 && !hasChar '-' p.2 && !hasChar '\n' p.2

/-- The raw output block of the round-trip property: N context lines, one
match line, M context lines, all for the same file. -/
def rawSearchBlock (f dsm cm : List Char)
    (befores afters : List (List Char × List Char)) : List Char :=
  joinLines (befores.map (ctxLine f) ++ mLine f dsm cm :: afters.map (ctxLine f))

/-- Invariant of the per-section loop used to show that every match after
the first one of a section has an empty `context_before`: the tail of the
accumulated `matches` has empty `context_before`s, and once a match has
been pushed the pending `currentMatch` (which always exists from the first
match line on) was created with an empty buffer. -/
def cbInv (s : LoopState) : Prop :=
  (∀ m ∈ s.«matches».tail, m.context_before = []) ∧
  (s.«matches» ≠ [] → ∀ m, s.currentMatch = some m → m.context_before = []) ∧
  (s.«matches» ≠ [] → s.currentMatch ≠ none)

/-! ## Helper lemmas -/

theorem hasChar_append (x : Char) (a b : List Char) :
    hasChar x (a ++ b) = (hasChar x a || hasChar x b) := by
  induction a with
  | nil => simp [hasChar]
  | cons c t ih => simp [hasChar, ih, Bool.or_assoc]

theorem hasChar_cons (x c : Char) (t : List Char) :
    hasChar x (c :: t) = (decide (c = x) || hasChar x t) := rfl

theorem splitFirstColon_append {a : List Char} (b : List Char)
    (h : hasChar ':' a = false) :
    splitFirstColon (a ++ ':' :: b) = some (a, b) := by
  induction a with
  | nil => simp [splitFirstColon]
  | cons c t ih =>
    simp only [hasChar_cons, Bool.or_eq_false_iff, decide_eq_false_iff_not] at h
    simp [splitFirstColon, h.1, ih h.2]

theorem splitFirstColon_none {l : List Char} (h : hasChar ':' l = false) :
    splitFirstColon l = none := by
  induction l with
  | nil => rfl
  | cons c t ih =>
    simp only [hasChar_cons, Bool.or_eq_false_iff, decide_eq_false_iff_not] at h
    simp [splitFirstColon, h.1, ih h.2]

theorem takeDigits_append {ds : List Char} (x : Char) (r : List Char)
    (hds : allDigits ds = true) (hx : x.isDigit = false) :
    takeDigits (ds ++ x :: r) = (ds, x :: r) := by
  induction ds with
  | nil => simp [takeDigits, hx]
  | cons c t ih =>
    simp only [allDigits, Bool.and_eq_true] at hds
    simp [takeDigits, hds.1, ih hds.2]

theorem takeDigits_eq_self_append (l : List Char) :
    l = (takeDigits l).1 ++ (takeDigits l).2 := by
  induction l with
  | nil => rfl
  | cons c t ih =>
    by_cases h : c.isDigit
    · simp only [takeDigits, h, if_pos]
      exact congrArg (c :: ·) ih
    · simp [takeDigits, h]

theorem allDigits_hasChar_false {ds : List Char} (x : Char)
    (h : allDigits ds = true) (hx : x.isDigit = false) :
    hasChar x ds = false := by
  induction ds with
  | nil => rfl
  | cons c t ih =>
    simp only [allDigits, Bool.and_eq_true] at h
    have : ¬(c = x) := fun he => by rw [he] at h; exact absurd h.1 (by simp [hx])
    simp [hasChar_cons, this, ih h.2]

theorem matchFileName_mLine {f : List Char} (ds c : List Char)
    (hne : f ≠ []) (hcol : hasChar ':' f = false) :
    matchFileName (mLine f ds c) = some f := by
  unfold mLine matchFileName
  rw [splitFirstColon_append (ds ++ ':' :: c) hcol]
  simp [hne]

theorem matchLineNumber_no_colon {l : List Char} (h : hasChar ':' l = false) :
    matchLineNumber l = none := by
  cases l with
  | nil => rfl
  | cons c t =>
    simp only [hasChar_cons, Bool.or_eq_false_iff] at h
    simp [matchLineNumber, splitFirstColon_none h.2]

theorem goodFile_parts {c0 c1 : Char} {t : List Char}
    (hf : goodFile (c0 :: c1 :: t) = true) :
    c0 ≠ '-' ∧ jsWhitespace c0 = false ∧ hasChar ':' (c0 :: c1 :: t) = false ∧
      hasChar '\n' (c0 :: c1 :: t) = false := by
  simpa only [goodFile, Bool.and_eq_true, Bool.not_eq_true',
    decide_eq_false_iff_not, and_assoc] using hf

theorem goodDigits_parts {ds : List Char} (h : goodDigits ds = true) :
    ds ≠ [] ∧ allDigits ds = true := by
  cases ds with
  | nil => simp [goodDigits] at h
  | cons c t =>
    refine ⟨by simp, ?_⟩
    have := (Bool.and_eq_true _ _).mp (by simpa only [goodDigits] using h)
    exact this.2

theorem matchLineNumber_mLine {f ds : List Char} (c : List Char)
    (hf : goodFile f = true) (hds : goodDigits ds = true) :
    matchLineNumber (mLine f ds c) = some (parseDigits ds, c) := by
  cases f with
  | nil => simp [goodFile] at hf
  | cons c0 f1 =>
    cases f1 with
    | nil => simp [goodFile] at hf
    | cons c1 t =>
      obtain ⟨h0, _, hcol, _⟩ := goodFile_parts hf
      obtain ⟨hne, hall⟩ := goodDigits_parts hds
      have hcol1 : hasChar ':' (c1 :: t) = false := by
        simp only [hasChar_cons, Bool.or_eq_false_iff] at hcol
        simp [hasChar_cons, hcol.2.1, hcol.2.2]
      have hsp := splitFirstColon_append (ds ++ ':' :: c) hcol1
      simp only [List.cons_append] at hsp
      have htd := takeDigits_append ':' c hall (by decide)
      simp only [mLine, List.cons_append]
      simp [matchLineNumber, h0, hsp, htd, hne]

theorem matchContextCore_no_dash {l : List Char} (h : hasChar '-' l = false) :
    matchContextCore l = none := by
  induction l with
  | nil => rfl
  | cons c t ih =>
    simp only [hasChar_cons, Bool.or_eq_false_iff, decide_eq_false_iff_not] at h
    have hrec := ih h.2
    simp only [matchContextCore, hrec]
    cases t with
    | nil => simp
    | cons d u =>
      have hd : ¬ d = '-' := by
        simp only [hasChar_cons, Bool.or_eq_false_iff, decide_eq_false_iff_not] at h
        exact h.2.1
      simp [hd]

theorem isDigit_ne_colon {c : Char} (h : c.isDigit = true) : ¬ c = ':' := by
  intro he
  rw [he] at h
  exact absurd h (by decide)

theorem isDigit_ne_dash {c : Char} (h : c.isDigit = true) : ¬ c = '-' := by
  intro he
  rw [he] at h
  exact absurd h (by decide)

theorem takeDigits_no_dash_tail {c : List Char} (h : hasChar '-' c = false)
    (r : List Char) (hr : (takeDigits c).2 = '-' :: r) : False := by
  have heq := takeDigits_eq_self_append c
  rw [hr] at heq
  have htrue : hasChar '-' c = true := by
    rw [heq]
    simp [hasChar_append, hasChar_cons]
  rw [h] at htrue
  cases htrue

theorem dash_ne_colon : ¬ ('-' : Char) = ':' := by decide

theorem matchContextCore_cons (c : Char) (t : List Char) :
    matchContextCore (c :: t) =
      if c = ':' then none
      else
        match matchContextCore t with
        | some (p, ds, rest) => some (c :: p, ds, rest)
        | none =>
          match t with
          | [] => none
          | d :: u =>
            if d = '-' then
              let q := takeDigits u
              if q.1 = [] then none
              else
                match q.2 with
                | [] => none
                | e :: rest => if e = '-' then some ([c], q.1, rest) else none
            else none := rfl

theorem matchContextCore_digits_dash {ds c : List Char}
    (hds : allDigits ds = true) (hc : hasChar '-' c = false) :
    matchContextCore (ds ++ '-' :: c) = none := by
  induction ds with
  | nil =>
    rw [List.nil_append, matchContextCore_cons, matchContextCore_no_dash hc]
    cases c with
    | nil => simp [dash_ne_colon]
    | cons d u =>
      have hd : ¬ d = '-' := by
        simp only [hasChar_cons, Bool.or_eq_false_iff, decide_eq_false_iff_not] at hc
        exact hc.1
      simp [dash_ne_colon, hd]
  | cons e ds1 ih =>
    simp only [allDigits, Bool.and_eq_true] at hds
    have hrec := ih hds.2
    have hecol := isDigit_ne_colon hds.1
    rw [List.cons_append, matchContextCore_cons, hrec]
    cases ds1 with
    | nil =>
      simp only [List.nil_append]
      by_cases hq : (takeDigits c).1 = []
      · simp [hecol, hq, dash_ne_colon]
      · cases hq2 : (takeDigits c).2 with
        | nil => simp [hecol, hq, hq2]
        | cons e2 r =>
          have he2 : ¬ e2 = '-' := fun he => by
            rw [he] at hq2
            exact takeDigits_no_dash_tail hc r hq2
          simp [hecol, hq, hq2, he2]
    | cons e2 ds2 =>
      have he2 := isDigit_ne_dash (show e2.isDigit = true by
        simp only [allDigits, Bool.and_eq_true] at hds
        exact hds.2.1)
      simp [hecol, List.cons_append, he2]

theorem matchContextCore_ctxLine {f ds c : List Char} (hf : f ≠ [])
    (hcolf : hasChar ':' f = false) (hds : goodDigits ds = true)
    (hdc : hasChar '-' c = false) :
    matchContextCore (f ++ '-' :: (ds ++ '-' :: c)) = some (f, ds, c) := by
  obtain ⟨hdsne, hdsall⟩ := goodDigits_parts hds
  induction f with
  | nil => exact absurd rfl hf
  | cons x f1 ih =>
    simp only [hasChar_cons, Bool.or_eq_false_iff, decide_eq_false_iff_not] at hcolf
    have hx := hcolf.1
    cases f1 with
    | nil =>
      have hrec2 := matchContextCore_digits_dash hdsall hdc
      have htd := takeDigits_append '-' c hdsall (by decide)
      rw [List.cons_append, List.nil_append, matchContextCore_cons,
        matchContextCore_cons, hrec2]
      cases ds with
      | nil => exact absurd rfl hdsne
      | cons e ds1 =>
        have he := isDigit_ne_dash (show e.isDigit = true by
          simp only [allDigits, Bool.and_eq_true] at hdsall
          exact hdsall.1)
        simp only [List.cons_append] at htd
        simp [hx, dash_ne_colon, List.cons_append, he, htd]
    | cons y f2 =>
      have hrec := ih (by simp) hcolf.2
      rw [List.cons_append, matchContextCore_cons, hrec]
      simp [hx]

theorem matchContext_ctxLine {f : List Char} (p : List Char × List Char)
    (hf : goodFile f = true) (hp : goodCtx p = true) :
    matchContext (ctxLine f p) = some (parseDigits p.1, p.2) := by
  have hfne : f ≠ [] := by
    cases f with
    | nil => simp [goodFile] at hf
    | cons a b => simp
  have hcolf : hasChar ':' f = false := by
    cases f with
    | nil => simp [goodFile] at hf
    | cons a b =>
      cases b with
      | nil => simp [goodFile] at hf
      | cons a2 b2 => exact (goodFile_parts hf).2.2.1
  simp only [goodCtx, Bool.and_eq_true, Bool.not_eq_true'] at hp
  have hds : goodDigits p.1 = true := hp.1.1.1
  have hdc : hasChar '-' p.2 = false := hp.1.2
  unfold ctxLine matchContext
  rw [matchContextCore_ctxLine hfne hcolf hds hdc]

theorem splitLines_no_newline {l : List Char} (h : hasChar '\n' l = false) :
    splitLines l = [l] := by
  induction l with
  | nil => rfl
  | cons c t ih =>
    simp only [hasChar_cons, Bool.or_eq_false_iff, decide_eq_false_iff_not] at h
    simp [splitLines, ih h.2, h.1]

theorem splitLines_append {l r : List Char} (h : hasChar '\n' l = false) :
    splitLines (l ++ '\n' :: r) = l :: splitLines r := by
  induction l with
  | nil =>
    cases hr : splitLines r with
    | nil => simp [splitLines, hr]
    | cons a b => simp [splitLines, hr]
  | cons c t ih =>
    simp only [hasChar_cons, Bool.or_eq_false_iff, decide_eq_false_iff_not] at h
    have := ih h.2
    cases hs : splitLines (t ++ '\n' :: r) with
    | nil => rw [hs] at this; cases this
    | cons a b =>
      rw [hs] at this
      cases this
      simp [splitLines, hs, h.1]

theorem splitLines_joinLines {L : List (List Char)} (hne : L ≠ [])
    (h : ∀ l ∈ L, hasChar '\n' l = false) :
    splitLines (joinLines L) = L := by
  induction L with
  | nil => exact absurd rfl hne
  | cons l ls ih =>
    cases ls with
    | nil => exact splitLines_no_newline (h l (by simp))
    | cons l2 ls2 =>
      have hl : hasChar '\n' l = false := h l (by simp)
      have hrest : ∀ x ∈ l2 :: ls2, hasChar '\n' x = false := by
        intro x hx
        exact h x (by simp [hx])
      show splitLines (l ++ '\n' :: joinLines (l2 :: ls2)) = l :: l2 :: ls2
      rw [splitLines_append hl, ih (by simp) hrest]

theorem joinLines_cons_ne_nil {l : List Char} (ls : List (List Char))
    (h : l ≠ []) : joinLines (l :: ls) ≠ [] := by
  cases ls with
  | nil => exact h
  | cons a b =>
    show l ++ '\n' :: joinLines (a :: b) ≠ []
    simp

theorem sectionsOf_shape (x : List Char) (xs : List (List Char)) :
    ∃ s ss, sectionsOf (x :: xs) = (x :: s) :: ss := by
  cases xs with
  | nil => exact ⟨[], [], rfl⟩
  | cons l2 ls =>
    show ∃ s ss, (match sectionsOf (l2 :: ls) with
      | [] => [[x]]
      | s :: ss =>
        if isSplitLine l2 ls then [x] :: s :: ss else (x :: s) :: ss) = (x :: s) :: ss
    obtain ⟨s, ss, hs⟩ := sectionsOf_shape l2 ls
    rw [hs]
    by_cases hsp : isSplitLine l2 ls
    · exact ⟨[], (l2 :: s) :: ss, by simp [hsp]⟩
    · exact ⟨l2 :: s, ss, by simp [hsp]⟩

theorem sectionsOf_no_split {m : List Char} {as : List (List Char)}
    (h : ∀ a ∈ as, hasChar ':' a = false) :
    sectionsOf (m :: as) = [m :: as] := by
  induction as generalizing m with
  | nil => rfl
  | cons a as1 ih =>
    have ha : hasChar ':' a = false := h a (by simp)
    have hrest : ∀ x ∈ as1, hasChar ':' x = false := fun x hx => h x (by simp [hx])
    have hih : sectionsOf (a :: as1) = [a :: as1] := ih hrest
    show (match sectionsOf (a :: as1) with
      | [] => [[m]]
      | s :: ss =>
        if isSplitLine a as1 then [m] :: s :: ss else (m :: s) :: ss) = [m :: a :: as1]
    rw [hih]
    have hsp : isSplitLine a as1 = false := by
      cases a with
      | nil => rfl
      | cons c t =>
        simp only [hasChar_cons, Bool.or_eq_false_iff] at ha
        have hany : as1.any (hasChar ':') = false := by
          rw [List.any_eq_false]
          intro x hx
          simp [hrest x hx]
        simp [isSplitLine, ha.2, hany]
    simp [hsp]

theorem sectionsOf_prepend {bs : List (List Char)} {m : List Char}
    {as : List (List Char)}
    (hb : ∀ b ∈ bs, ∃ c t, b = c :: t ∧ jsWhitespace c = false)
    (hm : ∃ c t, m = c :: t ∧ jsWhitespace c = false ∧ hasChar ':' t = true) :
    sectionsOf (bs ++ m :: as) = bs.map (fun b => [b]) ++ sectionsOf (m :: as) := by
  induction bs with
  | nil => rfl
  | cons b bs1 ih =>
    have hrest : ∀ x ∈ bs1, ∃ c t, x = c :: t ∧ jsWhitespace c = false :=
      fun x hx => hb x (by simp [hx])
    have hih := ih hrest
    obtain ⟨cm, tm, hmEq, hmws, hmcol⟩ := hm
    cases bs1 with
    | nil =>
      show (match sectionsOf (m :: as) with
        | [] => [[b]]
        | s :: ss =>
          if isSplitLine m as then [b] :: s :: ss else (b :: s) :: ss) = _
      obtain ⟨s, ss, hs⟩ := sectionsOf_shape m as
      have hsp : isSplitLine m as = true := by
        rw [hmEq]
        simp [isSplitLine, hmws, hmcol]
      rw [hs, hsp]
      simp
    | cons b2 bs2 =>
      obtain ⟨c2, t2, hb2Eq, hb2ws⟩ := hb b2 (by simp)
      show (match sectionsOf (b2 :: (bs2 ++ m :: as)) with
        | [] => [[b]]
        | s :: ss =>
          if isSplitLine b2 (bs2 ++ m :: as) then [b] :: s :: ss
          else (b :: s) :: ss) = _
      have hsp : isSplitLine b2 (bs2 ++ m :: as) = true := by
        rw [hb2Eq]
        have hmem : hasChar ':' m = true := by
          rw [hmEq, hasChar_cons, hmcol]
          simp
        have hany : (bs2 ++ m :: as).any (hasChar ':') = true := by
          rw [List.any_eq_true]
          exact ⟨m, by simp, hmem⟩
        simp [isSplitLine, hb2ws, hany]
      obtain ⟨s, ss, hs⟩ := sectionsOf_shape b2 (bs2 ++ m :: as)
      rw [List.cons_append] at hih
      rw [hs] at hih
      rw [hs, hsp]
      simp only [if_true]
      rw [hih]
      simp

theorem processSection_no_colon_first {b : List Char} (rest : List (List Char))
    (h : hasChar ':' b = false) :
    processSection (b :: rest) = none := by
  have hmf : matchFileName b = none := by
    unfold matchFileName
    rw [splitFirstColon_none h]
  simp only [processSection]
  by_cases hws : ((b :: rest).all fun l => l.all jsWhitespace) = true
  · simp [hws]
  · simp [hws, hmf]

theorem goodFile_head {f : List Char} (hf : goodFile f = true) :
    ∃ c0 t0, f = c0 :: t0 ∧ jsWhitespace c0 = false ∧ c0 ≠ '-' := by
  cases f with
  | nil => simp [goodFile] at hf
  | cons c0 f1 =>
    cases f1 with
    | nil => simp [goodFile] at hf
    | cons c1 t =>
      obtain ⟨h0, hws, _, _⟩ := goodFile_parts hf
      exact ⟨c0, c1 :: t, rfl, hws, h0⟩

theorem goodFile_no_colon {f : List Char} (hf : goodFile f = true) :
    hasChar ':' f = false := by
  cases f with
  | nil => simp [goodFile] at hf
  | cons c0 f1 =>
    cases f1 with
    | nil => simp [goodFile] at hf
    | cons c1 t => exact (goodFile_parts hf).2.2.1

theorem goodFile_ne_nil {f : List Char} (hf : goodFile f = true) : f ≠ [] := by
  obtain ⟨c0, t0, heq, _⟩ := goodFile_head hf
  rw [heq]
  simp

theorem ctxLine_not_all_ws {f : List Char} (p : List Char × List Char)
    (hf : goodFile f = true) : (ctxLine f p).all jsWhitespace = false := by
  obtain ⟨c0, t0, heq, hws, _⟩ := goodFile_head hf
  rw [show ctxLine f p = c0 :: (t0 ++ '-' :: (p.1 ++ '-' :: p.2)) by
    rw [heq]; rfl]
  simp [hws]

theorem mLine_not_all_ws {f : List Char} (ds c : List Char)
    (hf : goodFile f = true) : (mLine f ds c).all jsWhitespace = false := by
  obtain ⟨c0, t0, heq, hws, _⟩ := goodFile_head hf
  rw [show mLine f ds c = c0 :: (t0 ++ ':' :: (ds ++ ':' :: c)) by
    rw [heq]; rfl]
  simp [hws]

theorem ctxLine_no_colon {f : List Char} (p : List Char × List Char)
    (hf : goodFile f = true) (hp : goodCtx p = true) :
    hasChar ':' (ctxLine f p) = false := by
  simp only [goodCtx, Bool.and_eq_true, Bool.not_eq_true'] at hp
  have hds := goodDigits_parts hp.1.1.1
  unfold ctxLine
  rw [hasChar_append]
  rw [goodFile_no_colon hf]
  rw [hasChar_cons]
  rw [hasChar_append]
  rw [allDigits_hasChar_false ':' hds.2 (by decide)]
  rw [hasChar_cons]
  rw [hp.1.1.2]
  rfl

theorem foldl_ctx_lines {f : List Char} (hf : goodFile f = true)
    (ps : List (List Char × List Char)) (hps : ∀ p ∈ ps, goodCtx p = true)
    (fn : List Char) (cur : SearchMatch) (buf : List ContextLine)
    (acc : List SearchMatch) :
    List.foldl (stepLine fn) ⟨some cur, buf, acc⟩ (ps.map (ctxLine f)) =
      ⟨some cur, buf ++ ps.map ctxOf, acc⟩ := by
  induction ps generalizing buf with
  | nil => simp
  | cons p ps1 ih =>
    have hp : goodCtx p = true := hps p (by simp)
    have hrest : ∀ x ∈ ps1, goodCtx x = true := fun x hx => hps x (by simp [hx])
    have hstep : stepLine fn ⟨some cur, buf, acc⟩ (ctxLine f p) =
        ⟨some cur, buf ++ [ctxOf p], acc⟩ := by
      unfold stepLine
      rw [ctxLine_not_all_ws p hf]
      rw [matchLineNumber_no_colon (ctxLine_no_colon p hf hp)]
      rw [matchContext_ctxLine p hf hp]
      simp [ctxOf]
    simp only [List.map_cons, List.foldl_cons, hstep]
    rw [ih hrest]
    simp

theorem processSection_searchBlock {f dsm : List Char} (cm : List Char)
    {afters : List (List Char × List Char)}
    (hf : goodFile f = true) (hdsm : goodDigits dsm = true)
    (hafters : ∀ p ∈ afters, goodCtx p = true) :
    processSection (mLine f dsm cm :: afters.map (ctxLine f)) =
      some ⟨f, [⟨f, parseDigits dsm, cm, [], afters.map ctxOf⟩]⟩ := by
  have hmf := matchFileName_mLine dsm cm (goodFile_ne_nil hf) (goodFile_no_colon hf)
  have hstep1 : stepLine f ⟨none, [], []⟩ (mLine f dsm cm) =
      ⟨some ⟨f, parseDigits dsm, cm, [], []⟩, [], []⟩ := by
    unfold stepLine
    rw [mLine_not_all_ws dsm cm hf, matchLineNumber_mLine cm hf hdsm]
    simp
  have hws : ((mLine f dsm cm :: afters.map (ctxLine f)).all
      fun l => l.all jsWhitespace) = false := by
    simp [List.all_cons, mLine_not_all_ws dsm cm hf]
  simp only [processSection, hws, hmf, Bool.false_eq_true, if_false,
    List.foldl_cons, hstep1]
  rw [foldl_ctx_lines hf afters hafters f _ _ _]
  simp [flushFinal]

theorem ctxLine_ne_nil {f : List Char} (p : List Char × List Char)
    (hf : goodFile f = true) : ctxLine f p ≠ [] := by
  obtain ⟨c0, t0, heq, _, _⟩ := goodFile_head hf
  rw [show ctxLine f p = c0 :: (t0 ++ '-' :: (p.1 ++ '-' :: p.2)) by rw [heq]; rfl]
  simp

theorem mLine_ne_nil {f : List Char} (ds c : List Char)
    (hf : goodFile f = true) : mLine f ds c ≠ [] := by
  obtain ⟨c0, t0, heq, _, _⟩ := goodFile_head hf
  rw [show mLine f ds c = c0 :: (t0 ++ ':' :: (ds ++ ':' :: c)) by rw [heq]; rfl]
  simp

theorem goodFile_no_newline {f : List Char} (hf : goodFile f = true) :
    hasChar '\n' f = false := by
  cases f with
  | nil => simp [goodFile] at hf
  | cons c0 f1 =>
    cases f1 with
    | nil => simp [goodFile] at hf
    | cons c1 t => exact (goodFile_parts hf).2.2.2

theorem ctxLine_no_newline {f : List Char} (p : List Char × List Char)
    (hf : goodFile f = true) (hp : goodCtx p = true) :
    hasChar '\n' (ctxLine f p) = false := by
  simp only [goodCtx, Bool.and_eq_true, Bool.not_eq_true'] at hp
  have hds := goodDigits_parts hp.1.1.1
  unfold ctxLine
  rw [hasChar_append, goodFile_no_newline hf, hasChar_cons, hasChar_append,
    allDigits_hasChar_false '\n' hds.2 (by decide), hasChar_cons, hp.2]
  rfl

theorem mLine_no_newline {f : List Char} (ds c : List Char)
    (hf : goodFile f = true) (hds : goodDigits ds = true)
    (hc : hasChar '\n' c = false) :
    hasChar '\n' (mLine f ds c) = false := by
  have hda := (goodDigits_parts hds).2
  unfold mLine
  rw [hasChar_append, goodFile_no_newline hf, hasChar_cons, hasChar_append,
    allDigits_hasChar_false '\n' hda (by decide), hasChar_cons, hc]
  rfl

theorem structureResults_searchBlock {f dsm cm : List Char}
    {befores afters : List (List Char × List Char)}
    (hf : goodFile f = true) (hdsm : goodDigits dsm = true)
    (hcm : hasChar '\n' cm = false)
    (hbef : ∀ p ∈ befores, goodCtx p = true)
    (haft : ∀ p ∈ afters, goodCtx p = true) :
    structureResults (rawSearchBlock f dsm cm befores afters) =
      [⟨f, [⟨f, parseDigits dsm, cm, [], afters.map ctxOf⟩]⟩] := by
  obtain ⟨c0, t0, hfEq, hfws, _⟩ := goodFile_head hf
  have hlinesOk : ∀ l ∈ befores.map (ctxLine f) ++
      mLine f dsm cm :: afters.map (ctxLine f), hasChar '\n' l = false := by
    intro l hl
    rcases List.mem_append.mp hl with hm | hm
    · obtain ⟨p, hp, rfl⟩ := List.mem_map.mp hm
      exact ctxLine_no_newline p hf (hbef p hp)
    · rcases List.mem_cons.mp hm with rfl | hm2
      · exact mLine_no_newline dsm cm hf hdsm hcm
      · obtain ⟨p, hp, rfl⟩ := List.mem_map.mp hm2
        exact ctxLine_no_newline p hf (haft p hp)
  have hLne : (befores.map (ctxLine f) ++
      mLine f dsm cm :: afters.map (ctxLine f)) ≠ [] := by simp
  have hrawne : rawSearchBlock f dsm cm befores afters ≠ [] := by
    unfold rawSearchBlock
    cases hb : befores.map (ctxLine f) with
    | nil =>
      rw [List.nil_append]
      exact joinLines_cons_ne_nil _ (mLine_ne_nil dsm cm hf)
    | cons b bs =>
      rw [List.cons_append]
      refine joinLines_cons_ne_nil _ ?_
      obtain ⟨p, hp, rfl⟩ := List.mem_map.mp (hb ▸ List.mem_cons_self b bs)
      exact ctxLine_ne_nil p hf
  have hrawEmpty : (rawSearchBlock f dsm cm befores afters).isEmpty = false := by
    cases hr : rawSearchBlock f dsm cm befores afters with
    | nil => exact absurd hr hrawne
    | cons a b => rfl
  have hsplit : splitLines (rawSearchBlock f dsm cm befores afters) =
      befores.map (ctxLine f) ++ mLine f dsm cm :: afters.map (ctxLine f) :=
    splitLines_joinLines hLne hlinesOk
  have hsections : sectionsOf (befores.map (ctxLine f) ++
      mLine f dsm cm :: afters.map (ctxLine f)) =
      (befores.map (ctxLine f)).map (fun b => [b]) ++
        [mLine f dsm cm :: afters.map (ctxLine f)] := by
    rw [sectionsOf_prepend ?hb ?hm]
    case hb =>
      intro b hbmem
      obtain ⟨p, hp, rfl⟩ := List.mem_map.mp hbmem
      exact ⟨c0, t0 ++ '-' :: (p.1 ++ '-' :: p.2), by rw [show ctxLine f p =
        c0 :: (t0 ++ '-' :: (p.1 ++ '-' :: p.2)) by rw [hfEq]; rfl], hfws⟩
    case hm =>
      refine ⟨c0, t0 ++ ':' :: (dsm ++ ':' :: cm), ?_, hfws, ?_⟩
      · rw [show mLine f dsm cm = c0 :: (t0 ++ ':' :: (dsm ++ ':' :: cm)) by
          rw [hfEq]; rfl]
      · rw [hasChar_append, hasChar_cons]
        simp
    rw [sectionsOf_no_split]
    intro a ha
    obtain ⟨p, hp, rfl⟩ := List.mem_map.mp ha
    exact ctxLine_no_colon p hf (haft p hp)
  unfold structureResults
  rw [hrawEmpty]
  simp only [Bool.false_eq_true, if_false]
  rw [hsplit, hsections, List.filterMap_append]
  have hpref : ((befores.map (ctxLine f)).map (fun b => [b])).filterMap
      processSection = [] := by
    rw [List.filterMap_eq_nil_iff]
    intro sec hsec
    obtain ⟨b, hbmem, rfl⟩ := List.mem_map.mp hsec
    obtain ⟨p, hp, rfl⟩ := List.mem_map.mp hbmem
    exact processSection_no_colon_first [] (ctxLine_no_colon p hf (hbef p hp))
  rw [hpref, List.nil_append]
  simp [List.filterMap_cons, processSection_searchBlock cm hf hdsm haft]

theorem stepLine_skip {fn : List Char} (s : LoopState) {l : List Char}
    (h1 : matchLineNumber l = none) (h2 : matchContext l = none) :
    stepLine fn s l = s := by
  unfold stepLine
  rw [h1, h2]
  by_cases hws : (l.all jsWhitespace) = true <;> simp [hws]

theorem stepLine_match_cm_some {fn l : List Char} {n : Nat} {content : List Char}
    {s : LoopState} {m : SearchMatch}
    (hws : (l.all jsWhitespace) = false)
    (hml : matchLineNumber l = some (n, content)) (hcm : s.currentMatch = some m) :
    stepLine fn s l =
      ⟨some ⟨fn, n, content, [], []⟩, [],
        s.«matches» ++ [{ m with context_after := s.contextLines }]⟩ := by
  unfold stepLine
  rw [hws, hml, hcm]
  simp

theorem stepLine_match_cm_none {fn l : List Char} {n : Nat} {content : List Char}
    {s : LoopState} (hws : (l.all jsWhitespace) = false)
    (hml : matchLineNumber l = some (n, content)) (hcm : s.currentMatch = none) :
    stepLine fn s l =
      ⟨some ⟨fn, n, content, s.contextLines, []⟩, [], s.«matches»⟩ := by
  unfold stepLine
  rw [hws, hml, hcm]
  simp

theorem stepLine_ctx {fn l : List Char} {n : Nat} {content : List Char}
    (s : LoopState) (hws : (l.all jsWhitespace) = false)
    (hml : matchLineNumber l = none) (hmc : matchContext l = some (n, content)) :
    stepLine fn s l = { s with contextLines := s.contextLines ++ [⟨n, content⟩] } := by
  unfold stepLine
  rw [hws, hml, hmc]
  simp

theorem stepLine_cbInv {fn : List Char} {s : LoopState} (l : List Char)
    (h : cbInv s) : cbInv (stepLine fn s l) := by
  by_cases hws : (l.all jsWhitespace) = true
  · have : stepLine fn s l = s := by unfold stepLine; rw [hws]; simp
    rw [this]
    exact h
  · rw [Bool.not_eq_true] at hws
    cases hml : matchLineNumber l with
    | some nc =>
      obtain ⟨n, content⟩ := nc
      cases hcm : s.currentMatch with
      | none =>
        have hm0 : s.«matches» = [] := by
          by_contra hne
          exact (h.2.2 hne) hcm
        rw [stepLine_match_cm_none hws hml hcm]
        refine ⟨?_, ?_, ?_⟩
        · rw [hm0]; simp
        · rw [hm0]; simp
        · rw [hm0]; simp
      | some m =>
        rw [stepLine_match_cm_some hws hml hcm]
        refine ⟨?_, ?_, ?_⟩
        · cases hsm : s.«matches» with
          | nil => simp
          | cons a rest =>
            intro x hx
            rw [List.cons_append, List.tail_cons] at hx
            rcases List.mem_append.mp hx with hx2 | hx2
            · exact h.1 x (by rw [hsm]; simpa using hx2)
            · have hx3 : x = { m with context_after := s.contextLines } := by
                simpa using hx2
              have hcb := h.2.1 (by rw [hsm]; simp) m hcm
              rw [hx3]
              simpa using hcb
        · intro _ mm hmm
          cases hmm
          rfl
        · intro _
          simp
    | none =>
      cases hmc : matchContext l with
      | some nc =>
        obtain ⟨n, content⟩ := nc
        rw [stepLine_ctx s hws hml hmc]
        exact ⟨h.1, fun hne mm hmm => h.2.1 hne mm hmm, fun hne => h.2.2 hne⟩
      | none =>
        rw [stepLine_skip s hml hmc]
        exact h

theorem foldl_cbInv (fn : List Char) (lines : List (List Char)) {s : LoopState}
    (h : cbInv s) : cbInv (List.foldl (stepLine fn) s lines) := by
  induction lines generalizing s with
  | nil => exact h
  | cons l ls ih => exact ih (stepLine_cbInv l h)

theorem flushFinal_tail_cb {s : LoopState} (h : cbInv s) :
    ∀ m ∈ (flushFinal s).tail, m.context_before = [] := by
  unfold flushFinal
  cases hcm : s.currentMatch with
  | none => exact h.1
  | some m =>
    dsimp only
    cases hsm : s.«matches» with
    | nil => simp
    | cons a rest =>
      intro x hx
      rw [List.cons_append, List.tail_cons] at hx
      rcases List.mem_append.mp hx with hx2 | hx2
      · exact h.1 x (by rw [hsm]; simpa using hx2)
      · have hx3 : x = { m with context_after := s.contextLines } := by
          simpa using hx2
        have hcb := h.2.1 (by rw [hsm]; simp) m hcm
        rw [hx3]
        simpa using hcb

theorem cbInv_init : cbInv ⟨none, [], []⟩ := by
  refine ⟨by simp, by simp, by simp⟩

theorem processSection_some_spec {sec : List (List Char)} {r : SearchFileResult}
    (h : processSection sec = some r) :
    r.«matches» ≠ [] ∧ ∀ m ∈ r.«matches».tail, m.context_before = [] := by
  cases sec with
  | nil => simp [processSection] at h
  | cons firstLine rest =>
    simp only [processSection] at h
    split at h
    · cases h
    · split at h
      · cases h
      · split at h
        · cases h
        · cases h
          constructor
          · assumption
          · exact flushFinal_tail_cb (foldl_cbInv _ _ cbInv_init)

theorem length_filterMap_isSome {α β : Type} (g : α → Option β) (l : List α) :
    (l.filterMap g).length = (l.filter (fun x => (g x).isSome)).length := by
  induction l with
  | nil => rfl
  | cons a t ih =>
    cases hg : g a <;> simp [List.filterMap_cons, List.filter_cons, hg, ih]

theorem foldl_add_matches (l : List SearchFileResult) (n : Nat) :
    l.foldl (fun sum file => sum + file.«matches».length) n =
      n + (l.map (fun f => f.«matches».length)).sum := by
  induction l generalizing n with
  | nil => simp
  | cons a t ih => simp [List.foldl_cons, ih, Nat.add_assoc]

theorem mem_structureResults {raw : List Char} {r : SearchFileResult}
    (hr : r ∈ structureResults raw) :
    ∃ sec, sec ∈ sectionsOf (splitLines raw) ∧ processSection sec = some r := by
  unfold structureResults at hr
  by_cases hemp : raw.isEmpty = true
  · rw [hemp] at hr
    simp at hr
  · rw [Bool.not_eq_true] at hemp
    rw [hemp] at hr
    simp only [Bool.false_eq_true, if_false] at hr
    exact List.mem_filterMap.mp hr

/-! ## Claim theorems -/

/-- Claim C1, counterexample.  A cache directory that exists, validates,
and matches the requested URL, whose refresh (pull) then fails: the claim
says the failure is propagated without deleting the cache and without
re-cloning, but `cloneRepo` returns success (`.ok`), has removed the cache
directory inside the validation `catch`, and has fallen back to a fresh
re-clone. -/
theorem c1_counterexample :
    (cloneRepo "https://example.com/repo.git"
      ⟨true, true, some "https://example.com/repo.git"⟩ ⟨false, true⟩).result =
        CloneResult.ok ∧
    (cloneRepo "https://example.com/repo.git"
      ⟨true, true, some "https://example.com/repo.git"⟩
      ⟨false, true⟩).removedInValidation = true ∧
    (cloneRepo "https://example.com/repo.git"
      ⟨true, true, some "https://example.com/repo.git"⟩
      ⟨false, true⟩).cloneAttempted = true := by
  decide

/-- Claim C1 (amended): for every URL whose cache directory exists, opens
as a working copy, and has matching first-remote fetch URL, if the pull
fails then the exception is caught by the validation `catch` (`part_002`
line 31): the cache directory is deleted, a fresh re-clone is attempted,
and the call's outcome is that of the re-clone (the pull failure itself is
never propagated). -/
theorem c1_pull_failure_recovers_by_reclone (u : String) (st : CacheDir)
    (env : CloneEnv) (hex : st.dirExists = true) (hrepo : st.isRepo = true)
    (hurl : st.remoteUrl = some u) (hpull : env.pullOk = false) :
    (cloneRepo u st env).removedInValidation = true ∧
    (cloneRepo u st env).cloneAttempted = true ∧
    (cloneRepo u st env).result =
      (if env.cloneOk then CloneResult.ok
       else CloneResult.error "Failed to clone repository") := by
  unfold cloneRepo
  rw [hex, hrepo, hurl, hpull]
  simp only [if_pos rfl]
  unfold clonePhase
  by_cases hc : env.cloneOk = true <;> simp [hc]

/-- Claim C1, witness for the amended theorem at a concrete input. -/
theorem c1_pull_failure_recovers_by_reclone_witness :
    (cloneRepo "https://example.com/repo.git"
      ⟨true, true, some "https://example.com/repo.git"⟩
      ⟨false, true⟩).removedInValidation = true ∧
    (cloneRepo "https://example.com/repo.git"
      ⟨true, true, some "https://example.com/repo.git"⟩
      ⟨false, true⟩).cloneAttempted = true ∧
    (cloneRepo "https://example.com/repo.git"
      ⟨true, true, some "https://example.com/repo.git"⟩ ⟨false, true⟩).result =
      (if (⟨false, true⟩ : CloneEnv).cloneOk then CloneResult.ok
       else CloneResult.error "Failed to clone repository") :=
  c1_pull_failure_recovers_by_reclone "https://example.com/repo.git"
    ⟨true, true, some "https://example.com/repo.git"⟩ ⟨false, true⟩
    rfl rfl rfl rfl

/-- Claim C2, counterexample.  A valid working copy of a different URL
`v ≠ u` sits at `u`'s cache path: the claim says `cloneRepo u` deletes it,
clones `u` fresh and returns the path, but in fact nothing is removed
during validation (the mismatching `if` is simply false), the clone is
attempted into the still-populated directory and fails, and the call
throws instead of returning a fresh working copy. -/
theorem c2_counterexample :
    (cloneRepo "https://example.com/a.git"
      ⟨true, true, some "https://example.com/b.git"⟩ ⟨true, true⟩).result =
        CloneResult.error "Failed to clone repository" ∧
    (cloneRepo "https://example.com/a.git"
      ⟨true, true, some "https://example.com/b.git"⟩
      ⟨true, true⟩).removedInValidation = false ∧
    (cloneRepo "https://example.com/a.git"
      ⟨true, true, some "https://example.com/b.git"⟩ ⟨true, true⟩).result ≠
        CloneResult.ok := by
  decide

/-- Claim C2 (amended): when the cache directory holds a valid working
copy of a different URL `v ≠ u`, `cloneRepo u` does NOT delete it during
validation; the fresh clone is attempted into the still-populated
directory, which fails, after which the directory is removed and a clone
error is thrown.  In particular the call never returns a working copy
whose remote is `v` (it returns no working copy at all). -/
theorem c2_mismatch_clone_fails_no_predelete (u v : String) (st : CacheDir)
    (env : CloneEnv) (hex : st.dirExists = true) (hrepo : st.isRepo = true)
    (hurl : st.remoteUrl = some v) (hne : v ≠ u) :
    cloneRepo u st env =
      ⟨CloneResult.error "Failed to clone repository", false, true,
        DirContent.absent⟩ := by
  unfold cloneRepo
  rw [hex, hrepo, hurl]
  simp only [if_pos rfl, Option.some.injEq]
  rw [if_neg hne]
  unfold clonePhase
  simp

/-- Claim C2, witness for the amended theorem at a concrete input. -/
theorem c2_mismatch_clone_fails_no_predelete_witness :
    cloneRepo "https://example.com/a.git"
      ⟨true, true, some "https://example.com/b.git"⟩ ⟨true, true⟩ =
      ⟨CloneResult.error "Failed to clone repository", false, true,
        DirContent.absent⟩ :=
  c2_mismatch_clone_fails_no_predelete "https://example.com/a.git"
    "https://example.com/b.git" ⟨true, true, some "https://example.com/b.git"⟩
    ⟨true, true⟩ rfl rfl rfl (by decide)

/-- Claim C3, counterexample.  One file block with one match line, N = 1
context line before and M = 1 after: the claim demands
`context_before` of length 1, but the structurer produces the match with
an EMPTY `context_before` (the leading context line is split into its own
section by the `^(?=\S[^:]*:)` lookahead - whose `[^:]*` crosses the
newline to reach the match line's colon - and that section is dropped for
lack of a colon in its first line). -/
theorem c3_counterexample :
    structureResults "src/a.js-9-b\nsrc/a.js:10:m\nsrc/a.js-11-a".toList =
      [⟨"src/a.js".toList, [⟨"src/a.js".toList, 10, "m".toList, [],
        [⟨11, "a".toList⟩]⟩]⟩] ∧
    structureResults "src/a.js-9-b\nsrc/a.js:10:m\nsrc/a.js-11-a".toList ≠
      [⟨"src/a.js".toList, [⟨"src/a.js".toList, 10, "m".toList,
        [⟨9, "b".toList⟩], [⟨11, "a".toList⟩]⟩]⟩] := by
  decide

/-- Claim C3 (amended): for every synthetic one-file block with N context
lines before the single match line and M after (well-formed file name,
digit strings, and colon/dash/newline-free context contents), the
structurer produces exactly one `SearchFileResult` with exactly one
`SearchMatch` whose `context_before` has length 0 (regardless of N: the
leading context lines land in preceding sections and are dropped), whose
`context_after` has length M, and whose `line_number` and `content` are
those of the injected match line. -/
theorem c3_single_match_block_structure {f dsm cm : List Char}
    {befores afters : List (List Char × List Char)}
    (hf : goodFile f = true) (hdsm : goodDigits dsm = true)
    (hcm : hasChar '\n' cm = false)
    (hbef : ∀ p ∈ befores, goodCtx p = true)
    (haft : ∀ p ∈ afters, goodCtx p = true) :
    structureResults (rawSearchBlock f dsm cm befores afters) =
      [⟨f, [⟨f, parseDigits dsm, cm, [], afters.map ctxOf⟩]⟩] ∧
    ∀ r ∈ structureResults (rawSearchBlock f dsm cm befores afters),
      r.«matches».length = 1 ∧
      ∀ m ∈ r.«matches», m.context_before.length = 0 ∧
        m.context_after.length = afters.length ∧
        m.line_number = parseDigits dsm ∧ m.content = cm := by
  have hmain := structureResults_searchBlock hf hdsm hcm hbef haft
  refine ⟨hmain, ?_⟩
  intro r hr
  rw [hmain, List.mem_singleton] at hr
  subst hr
  refine ⟨rfl, ?_⟩
  intro m hm
  rw [List.mem_singleton] at hm
  subst hm
  simp

/-- Claim C3, witness for the amended theorem at a concrete block with
N = 1 and M = 1. -/
theorem c3_single_match_block_structure_witness :
    structureResults (rawSearchBlock "src/a.js".toList "10".toList "m".toList
      [("9".toList, "b".toList)] [("11".toList, "a".toList)]) =
      [⟨"src/a.js".toList, [⟨"src/a.js".toList, parseDigits "10".toList,
        "m".toList, [], [("11".toList, "a".toList)].map ctxOf⟩]⟩] :=
  (c3_single_match_block_structure (by decide) (by decide) (by decide)
    (by decide) (by decide)).1

/-- Claim C4, counterexample.  Two match lines for the SAME file produce
TWO `SearchFileResult` entries (each match line is a section split point,
so each lands in its own section), refuting "exactly one SearchFileResult
per distinct file". -/
theorem c4_counterexample :
    structureResults "ab:1:x\nab:2:y".toList =
      [⟨"ab".toList, [⟨"ab".toList, 1, "x".toList, [], []⟩]⟩,
       ⟨"ab".toList, [⟨"ab".toList, 2, "y".toList, [], []⟩]⟩] ∧
    (structureResults "ab:1:x\nab:2:y".toList).length = 2 := by
  decide

/-- Claim C4 (amended): the results sequence contains one
`SearchFileResult` per file SECTION with at least one recognized match
line (a single file may contribute several sections and thus several
entries), and no entry for a section that produced zero matches: every
emitted entry has a nonempty match list, and the number of entries equals
the number of sections on which `processSection` succeeds. -/
theorem c4_results_have_matches (raw : List Char) :
    (∀ r ∈ structureResults raw, r.«matches» ≠ []) ∧
    (structureResults raw).length =
      ((sectionsOf (splitLines raw)).filter
        (fun sec => (processSection sec).isSome)).length := by
  constructor
  · intro r hr
    obtain ⟨sec, _, hps⟩ := mem_structureResults hr
    exact (processSection_some_spec hps).1
  · by_cases hemp : raw.isEmpty = true
    · have hraweq : raw = [] := by
        cases raw with
        | nil => rfl
        | cons a t => simp [List.isEmpty] at hemp
      subst hraweq
      decide
    · rw [Bool.not_eq_true] at hemp
      unfold structureResults
      rw [hemp]
      simp only [Bool.false_eq_true, if_false]
      exact length_filterMap_isSome processSection _

/-- Claim C4, witness at a concrete input. -/
theorem c4_results_have_matches_witness :
    (⟨"ab".toList, [⟨"ab".toList, 1, "x".toList, [], []⟩]⟩ :
      SearchFileResult).«matches» ≠ [] :=
  (c4_results_have_matches "ab:1:x".toList).1
    ⟨"ab".toList, [⟨"ab".toList, 1, "x".toList, [], []⟩]⟩ (by decide)

/-- Claim C5: for every raw output, `total_matches` equals the sum of
`matches.length` over all `results` entries and `total_files` equals
`results.length`; for the empty output the report has `results = []`,
`total_matches = 0` and `total_files = 0`. -/
theorem c5_totals_invariant (pattern : List Char) (case_sensitive : Bool)
    (context_lines : Nat) (file_patterns : List (List Char))
    (stdout : List Char) :
    (searchReport pattern case_sensitive context_lines file_patterns
        stdout).total_matches =
      ((searchReport pattern case_sensitive context_lines file_patterns
        stdout).results.map (fun f => f.«matches».length)).sum ∧
    (searchReport pattern case_sensitive context_lines file_patterns
        stdout).total_files =
      (searchReport pattern case_sensitive context_lines file_patterns
        stdout).results.length ∧
    structureResults [] = [] ∧
    (searchReport pattern case_sensitive context_lines file_patterns
      []).results = [] ∧
    (searchReport pattern case_sensitive context_lines file_patterns
      []).total_matches = 0 ∧
    (searchReport pattern case_sensitive context_lines file_patterns
      []).total_files = 0 := by
  refine ⟨?_, rfl, rfl, rfl, rfl, rfl⟩
  show (structureResults stdout).foldl
      (fun sum file => sum + file.«matches».length) 0 = _
  rw [foldl_add_matches]
  simp [searchReport]

/-- Claim C6: the end-to-end example.  On the raw output
`"src/a.js:10:const x = 1;\nsrc/a.js-11-const y = 2;"` with
`context_lines = 2` and `case_sensitive = false`, the report contains one
file with one match at line 10, empty `context_before`, one
`context_after` line (11), and `total_matches = total_files = 1`. -/
theorem c6_end_to_end_example :
    (searchReport "const".toList false 2 []
      "src/a.js:10:const x = 1;\nsrc/a.js-11-const y = 2;".toList).results =
      [⟨"src/a.js".toList, [⟨"src/a.js".toList, 10, "const x = 1;".toList, [],
        [⟨11, "const y = 2;".toList⟩]⟩]⟩] ∧
    (searchReport "const".toList false 2 []
      "src/a.js:10:const x = 1;\nsrc/a.js-11-const y = 2;".toList).total_matches
        = 1 ∧
    (searchReport "const".toList false 2 []
      "src/a.js:10:const x = 1;\nsrc/a.js-11-const y = 2;".toList).total_files
        = 1 ∧
    (searchReport "const".toList false 2 []
      "src/a.js:10:const x = 1;\nsrc/a.js-11-const y = 2;".toList).case_sensitive
        = false ∧
    (searchReport "const".toList false 2 []
      "src/a.js:10:const x = 1;\nsrc/a.js-11-const y = 2;".toList).context_lines
        = 2 := by
  decide

/-- Claim C7: the structurer's line loop is total and tolerant - a line
recognized neither as a match line nor as a context line leaves the loop
state completely unchanged (it is silently dropped and contributes
nothing), rather than raising an error. -/
theorem c7_unrecognized_lines_dropped (fileName : List Char) (s : LoopState)
    (line : List Char) (h1 : matchLineNumber line = none)
    (h2 : matchContext line = none) :
    stepLine fileName s line = s :=
  stepLine_skip s h1 h2

/-- Claim C7, witness on a binary-file notice line. -/
theorem c7_unrecognized_lines_dropped_witness :
    stepLine "f".toList ⟨none, [], []⟩ "Binary file foo matches".toList =
      ⟨none, [], []⟩ :=
  c7_unrecognized_lines_dropped "f".toList ⟨none, [], []⟩
    "Binary file foo matches".toList (by decide) (by decide)

/-- Claim C8: when cache acquisition succeeds the file-read handler
returns a top-level success mapping each requested path to its content or
to a per-path error string (missing file, read error); a top-level error
arises only from a cache-acquisition failure. -/
theorem c8_read_files_error_isolation (fsRead : String → FileOutcome)
    (file_paths : List String) (msg : String) :
    handleGitReadFiles (Except.error msg) fsRead file_paths =
      Except.error ("Failed to process repository: " ++ msg) ∧
    handleGitReadFiles (Except.ok ()) fsRead file_paths =
      Except.ok (file_paths.map (fun p => (p, readOne fsRead p))) ∧
    (∀ p ∈ file_paths, (p, readOne fsRead p) ∈
      file_paths.map (fun q => (q, readOne fsRead q))) ∧
    (∀ p c, fsRead p = FileOutcome.found c → readOne fsRead p = c) ∧
    (∀ p, fsRead p = FileOutcome.missing →
      readOne fsRead p = "Error: File not found") ∧
    (∀ p m, fsRead p = FileOutcome.readError m →
      readOne fsRead p = "Error reading file: " ++ m) := by
  refine ⟨rfl, rfl, ?_, ?_, ?_, ?_⟩
  · intro p hp
    exact List.mem_map.mpr ⟨p, hp, rfl⟩
  · intro p c h
    unfold readOne
    rw [h]
  · intro p h
    unfold readOne
    rw [h]
  · intro p m h
    unfold readOne
    rw [h]

/-- Claim C8, witness: a missing file yields a per-path error string while
a clone failure yields the top-level error shape. -/
theorem c8_read_files_error_isolation_witness :
    handleGitReadFiles (Except.error "net down")
        (fun _ => FileOutcome.missing) ["a.txt"] =
      Except.error ("Failed to process repository: " ++ "net down") ∧
    readOne (fun _ => FileOutcome.missing) "a.txt" = "Error: File not found" :=
  ⟨(c8_read_files_error_isolation (fun _ => FileOutcome.missing)
      ["a.txt"] "net down").1,
   (c8_read_files_error_isolation (fun _ => FileOutcome.missing)
      ["a.txt"] "net down").2.2.2.2.1 "a.txt" rfl⟩

/-- Claim C9: in every structured result, every `SearchMatch` that is not
the first match of its `SearchFileResult` has an empty `context_before`:
buffered context lines always go to the previous match's `context_after`,
and the buffer is empty when a subsequent match is created. -/
theorem c9_later_matches_empty_context_before (raw : List Char)
    (r : SearchFileResult) (hr : r ∈ structureResults raw)
    (m : SearchMatch) (hm : m ∈ r.«matches».tail) :
    m.context_before = [] := by
  obtain ⟨sec, _, hps⟩ := mem_structureResults hr
  exact (processSection_some_spec hps).2 m hm

/-- Claim C9, witness on an input producing two matches in one section
(the second match line starts with a space, so it is not a split point). -/
theorem c9_later_matches_empty_context_before_witness :
    (⟨"ab".toList, 2, "y".toList, [], []⟩ : SearchMatch).context_before = [] :=
  c9_later_matches_empty_context_before "ab:1:x\n ab:2:y".toList
    ⟨"ab".toList, [⟨"ab".toList, 1, "x".toList, [], []⟩,
      ⟨"ab".toList, 2, "y".toList, [], []⟩]⟩ (by decide)
    ⟨"ab".toList, 2, "y".toList, [], []⟩ (by decide)

/-- Claim C10: the match-line classifier rejects every line whose text
before its first colon is a single character (the `[^-][^:]+` prefix needs
at least two characters before the colon) and every line beginning with
`'-'`; such lines can never produce a `SearchMatch`. -/
theorem c10_match_line_first_field_constraints :
    (∀ (c : Char) (t : List Char), ¬ c = ':' →
      matchLineNumber (c :: ':' :: t) = none) ∧
    (∀ t : List Char, matchLineNumber ('-' :: t) = none) := by
  constructor
  · intro c t hc
    unfold matchLineNumber
    by_cases hd : c = '-'
    · simp [hd]
    · simp [hd, splitFirstColon]
  · intro t
    unfold matchLineNumber
    simp

/-- Claim C10, witness at concrete lines. -/
theorem c10_match_line_first_field_constraints_witness :
    matchLineNumber ('a' :: ':' :: "10:x".toList) = none ∧
    matchLineNumber ('-' :: "ab:10:x".toList) = none :=
  ⟨c10_match_line_first_field_constraints.1 'a' "10:x".toList (by decide),
   c10_match_line_first_field_constraints.2 "ab:10:x".toList⟩
